import Mathlib

/-!
Verification development for the Creditra backend core:
the credit-line draw service, the credit-line lifecycle/ledger module,
the in-memory job queue, and the risk-evaluation cache.

Each subsystem is shallowly embedded as pure Lean functions mirroring the
TypeScript source statement by statement; wall-clock reads (`Date.now()`,
`new Date()`) become explicit `now : Nat` parameters (epoch milliseconds),
and `randomUUID()` id generation becomes a deterministic fresh counter
(only freshness/uniqueness of ids is observable in the source logic).
-/

namespace Draw

/-- Credit-line status, from `creditLineStore.ts` (`'Active' | 'Closed' | 'Suspended'`). -/
inductive Status where
| active
| suspended
| closed
deriving DecidableEq, Repr

/-- A credit line of the draw service store (`creditLineStore.ts`). -/
structure CreditLine where
id : String
borrowerId : String
limit : Int
utilized : Int
status : Status
deriving DecidableEq, Repr

/-- Draw request body, from `creditService.ts` (`DrawRequest`). -/
structure DrawRequest where
id : String
borrowerId : String
amount : Int
deriving DecidableEq, Repr

/-- The error messages thrown by `drawFromCreditLine`. -/
inductive DrawErr where
| notFound
| invalidStatus
| unauthorized
| invalidAmount
| overLimit
deriving DecidableEq, Repr

/-- Replace the first line with the given id by the updated line
(models the in-place mutation of the object returned by `Array.find`). -/
def setLine : List CreditLine → String → CreditLine → List CreditLine
| [], _, _ => []
| l :: ls, i, l' => if l.id = i then l' :: ls else l :: setLine ls i l'

/-- `drawFromCreditLine` from `creditService.ts`: find the line, then check
status, owner, amount positivity and the credit limit, in that order; on
success increment `utilized` and return the updated store and line. -/
def drawFromCreditLine (store : List CreditLine) (r : DrawRequest) :
    Except DrawErr (List CreditLine × CreditLine) :=
  match store.find? (fun l => l.id = r.id) with
  | none => .error .notFound
  | some line =>
    if line.status ≠ .active then .error .invalidStatus
    else if line.borrowerId ≠ r.borrowerId then .error .unauthorized
    else if r.amount ≤ 0 then .error .invalidAmount
    else if line.limit < line.utilized + r.amount then .error .overLimit
    else
      let line' : CreditLine := { line with utilized := line.utilized + r.amount }
      .ok (setLine store r.id line', line')

/-- The store after one draw attempt: unchanged when the draw is rejected. -/
def applyDraw (store : List CreditLine) (r : DrawRequest) : List CreditLine :=
  match drawFromCreditLine store r with
  | .ok (store', _) => store'
  | .error _ => store

/-- The store after a sequence of draw attempts. -/
def applyDraws (store : List CreditLine) (rs : List DrawRequest) : List CreditLine :=
  rs.foldl applyDraw store

/-- The balance invariant of a credit line. -/
def balInv (l : CreditLine) : Prop := 0 ≤ l.utilized ∧ l.utilized ≤ l.limit

instance (l : CreditLine) : Decidable (balInv l) := by
  unfold balInv; infer_instance

end Draw

namespace Ledger

/-- Credit-line status of the lifecycle module (`"active" | "suspended" | "closed"`). -/
inductive Status where
| active
| suspended
| closed
deriving DecidableEq, Repr

/-- Transaction type (`"draw" | "repayment" | "status_change"`). -/
inductive TransactionType where
| draw
| repayment
| statusChange
deriving DecidableEq, Repr

/-- Ledger transaction entry. `metadata` models the `{action: ...}` record as
its action string (empty when the record is empty); amounts are integers. -/
structure Transaction where
id : String
creditLineId : String
type : TransactionType
amount : Option Int
currency : Option String
timestamp : Nat
metadata : String
deriving DecidableEq, Repr

/-- Lifecycle event appended to `CreditLine.events`. -/
structure CreditLineEvent where
action : String
timestamp : Nat
deriving DecidableEq, Repr

/-- Credit line of the lifecycle module. -/
structure CreditLine where
id : String
status : Status
createdAt : Nat
updatedAt : Nat
events : List CreditLineEvent
deriving DecidableEq, Repr

/-- The module state: `_store` (a `Map` keyed by line id, kept in insertion
order), `_transactionStore` (a `Map` from line id to its transaction list),
and a counter standing in for `randomUUID` transaction-id generation. -/
structure LedgerState where
lines : List CreditLine
txs : List (String × List Transaction)
nextTx : Nat
deriving DecidableEq, Repr

/-- Errors of the lifecycle module (`CreditLineNotFoundError`,
`InvalidTransitionError` with its `currentStatus`/`requestedAction` fields). -/
inductive LedgerErr where
| notFound (id : String)
| invalidTransition (currentStatus : Status) (requestedAction : String)
deriving DecidableEq, Repr

/-- `_store.get(id)`. -/
def lookupLine (st : LedgerState) (i : String) : Option CreditLine :=
  st.lines.find? (fun l => l.id = i)

/-- `_store.set(id, line)`: replace the entry with this id, else append. -/
def setStoreLine : List CreditLine → CreditLine → List CreditLine
| [], l' => [l']
| l :: ls, l' => if l.id = l'.id then l' :: ls else l :: setStoreLine ls l'

/-- `_transactionStore.set(id, v)`: replace the entry with this key, else append. -/
def setTxs : List (String × List Transaction) → String → List Transaction →
    List (String × List Transaction)
| [], i, v => [(i, v)]
| p :: ps, i, v => if p.1 = i then (i, v) :: ps else p :: setTxs ps i v

/-- `_transactionStore.get(id) ?? []`. -/
def transactionsFor (st : LedgerState) (i : String) : List Transaction :=
  match st.txs.find? (fun p => p.1 = i) with
  | some p => p.2
  | none => []

/-- `recordTransaction`: append one immutable entry to the line's list. -/
def recordTransaction (st : LedgerState) (creditLineId : String)
    (ty : TransactionType) (ts : Nat) (amount : Option Int)
    (currency : Option String) (meta : String) : LedgerState :=
  let tx : Transaction :=
    { id := "tx-" ++ toString st.nextTx, creditLineId := creditLineId, type := ty,
      amount := amount, currency := currency, timestamp := ts, metadata := meta }
  { st with
    txs := setTxs st.txs creditLineId (transactionsFor st creditLineId ++ [tx]),
    nextTx := st.nextTx + 1 }

/-- `createCreditLine(id, status = "active")` at time `ts`. -/
def createCreditLine (st : LedgerState) (i : String) (status : Status) (ts : Nat) :
    LedgerState × CreditLine :=
  let line : CreditLine :=
    { id := i, status := status, createdAt := ts, updatedAt := ts,
      events := [{ action := "created", timestamp := ts }] }
  let st1 : LedgerState := { st with lines := setStoreLine st.lines line }
  (recordTransaction st1 i .statusChange ts none none "created", line)

/-- `suspendCreditLine(id)` at time `ts`. -/
def suspendCreditLine (st : LedgerState) (i : String) (ts : Nat) :
    Except LedgerErr (LedgerState × CreditLine) :=
  match lookupLine st i with
  | none => .error (.notFound i)
  | some line =>
    if line.status ≠ .active then .error (.invalidTransition line.status "suspend")
    else
      let line' : CreditLine :=
        { line with
            status := .suspended,
            updatedAt := ts,
            events := line.events ++ [{ action := "suspended", timestamp := ts }] }
      let st1 : LedgerState := { st with lines := setStoreLine st.lines line' }
      .ok (recordTransaction st1 i .statusChange ts none none "suspended", line')

/-- `closeCreditLine(id)` at time `ts`: only an already-closed line is rejected. -/
def closeCreditLine (st : LedgerState) (i : String) (ts : Nat) :
    Except LedgerErr (LedgerState × CreditLine) :=
  match lookupLine st i with
  | none => .error (.notFound i)
  | some line =>
    if line.status = .closed then .error (.invalidTransition line.status "close")
    else
      let line' : CreditLine :=
        { line with
            status := .closed,
            updatedAt := ts,
            events := line.events ++ [{ action := "closed", timestamp := ts }] }
      let st1 : LedgerState := { st with lines := setStoreLine st.lines line' }
      .ok (recordTransaction st1 i .statusChange ts none none "closed", line')

/-- Transaction filters; `fromTs`/`toTs` model the parsed `from`/`to` dates
as epoch milliseconds (`from` is a Lean keyword). -/
structure TransactionFilters where
type : Option TransactionType
fromTs : Option Nat
toTs : Option Nat
deriving DecidableEq, Repr

/-- The paginated result of `getTransactions`. -/
structure PaginatedTransactions where
transactions : List Transaction
total : Nat
page : Nat
limit : Nat
totalPages : Nat
deriving DecidableEq, Repr

/-- The `type` equality filter of `getTransactions` (applied iff a type
filter was supplied). -/
def filterByType (txs : List Transaction) : Option TransactionType → List Transaction
| some ty => txs.filter (fun tx => tx.type = ty)
| none => txs

/-- The inclusive `from` lower-bound filter of `getTransactions`. -/
def filterFrom (txs : List Transaction) : Option Nat → List Transaction
| some a => txs.filter (fun tx => a ≤ tx.timestamp)
| none => txs

/-- The inclusive `to` upper-bound filter of `getTransactions`. -/
def filterTo (txs : List Transaction) : Option Nat → List Transaction
| some b => txs.filter (fun tx => tx.timestamp ≤ b)
| none => txs

/-- The filter pipeline of `getTransactions`: `type` equality, then inclusive
`from`, then inclusive `to`, in source order. -/
def applyFilters (txs : List Transaction) (f : TransactionFilters) : List Transaction :=
  filterTo (filterFrom (filterByType txs f.type) f.fromTs) f.toTs

/-- `Math.ceil(a / b)` for natural `a` and positive `b`. -/
def ceilDiv (a b : Nat) : Nat := (a + b - 1) / b

/-- `getTransactions(id, filters, {page, limit})`. -/
def getTransactions (st : LedgerState) (i : String) (f : TransactionFilters)
    (page limit : Nat) : Except LedgerErr PaginatedTransactions :=
  if (lookupLine st i).isNone then .error (.notFound i)
  else
    let txs := applyFilters (transactionsFor st i) f
    let total := txs.length
    let totalPages := max 1 (ceilDiv total limit)
    let offset := (page - 1) * limit
    .ok { transactions := (txs.drop offset).take limit, total := total,
          page := page, limit := limit, totalPages := totalPages }

end Ledger

namespace Repay

/-- Modelled from the spec: the repository's repay endpoint is only a
placeholder ("Repay not yet implemented; placeholder response." in
`src/routes/credit.ts`), so `repay(creditLineId, amount)` is modelled from
spec §4.2: the draw validation order minus the borrower and over-limit checks
(line exists, else NotFound; status Active, else InvalidStatus; amount > 0,
else InvalidAmount); on success `utilized` decreases by `amount`, floored at
0, and one `repayment` transaction is appended to the line's ledger. -/
def repayCreditLine (store : List Draw.CreditLine) (txs : List Ledger.Transaction)
    (i : String) (amount : Int) (ts : Nat) (txid : String) :
    Except Draw.DrawErr (List Draw.CreditLine × List Ledger.Transaction × Draw.CreditLine) :=
  match store.find? (fun l => l.id = i) with
  | none => .error .notFound
  | some line =>
    if line.status ≠ .active then .error .invalidStatus
    else if amount ≤ 0 then .error .invalidAmount
    else
      let line' : Draw.CreditLine := { line with utilized := max 0 (line.utilized - amount) }
      let tx : Ledger.Transaction :=
        { id := txid, creditLineId := i, type := .repayment, amount := some amount,
          currency := none, timestamp := ts, metadata := "" }
      .ok (Draw.setLine store i line', txs ++ [tx], line')

end Repay

namespace Queue

/-- A job record (`InternalJob` of `jobQueue.ts`): the public `Job` fields plus
the scheduling field `nextRunAt`; `payload` is opaque to the queue and is
modelled as a string. -/
structure Job where
id : String
type : String
payload : String
attempts : Nat
maxAttempts : Nat
createdAt : Nat
updatedAt : Nat
nextRunAt : Nat
deriving DecidableEq, Repr

/-- The handler registry (`handlers` map): a handler, when registered for a
type, is modelled by its outcome on each job — `true` for success, `false`
for a throw/reject. -/
def Handlers : Type := String → Option (Job → Bool)

/-- The mutable queue state: `pending`, `failed`, and the `running` /
`processing` flags.  The backoff constant `retryBackoffMs` and the handler
registry are passed alongside. -/
structure QState where
pending : List Job
failed : List Job
running : Bool
processing : Bool
deriving DecidableEq, Repr

/-- `enqueue(type, payload, options)` at time `now`: pushes a fresh job with
`attempts = 0` and `nextRunAt = now + delayMs` and returns its id. -/
def enqueue (st : QState) (ty payload : String) (maxAttempts delayMs : Nat)
    (id : String) (now : Nat) : QState × String :=
  let job : Job :=
    { id := id, type := ty, payload := payload, attempts := 0,
      maxAttempts := maxAttempts, createdAt := now, updatedAt := now,
      nextRunAt := now + delayMs }
  ({ st with pending := st.pending ++ [job] }, id)

/-- `registerHandler(type, handler)`: replaces any prior handler for the type. -/
def registerHandler (hs : Handlers) (ty : String) (h : Job → Bool) : Handlers :=
  fun t => if t = ty then some h else hs t

/-- One loop iteration over a ready job inside `processTick`: a missing
handler drops the job into `failed` without invoking anything; otherwise the
handler runs (its job's id is logged), and on failure `attempts` is
incremented, the job is re-pended with `nextRunAt = now + backoff` while
`attempts < maxAttempts`, else moved to `failed`. -/
def processJob (handlers : Handlers) (backoff now : Nat)
    (acc : List Job × List Job × List String) (job : Job) :
    List Job × List Job × List String :=
  match handlers job.type with
  | none => (acc.1, acc.2.1 ++ [job], acc.2.2)
  | some h =>
    if h job then (acc.1, acc.2.1, acc.2.2 ++ [job.id])
    else
      let j' : Job := { job with attempts := job.attempts + 1, updatedAt := now }
      if j'.attempts < j'.maxAttempts then
        (acc.1 ++ [{ j' with nextRunAt := now + backoff }], acc.2.1, acc.2.2 ++ [job.id])
      else
        (acc.1, acc.2.1 ++ [j'], acc.2.2 ++ [job.id])

/-- `processTick` at time `now`: skipped while not running or re-entrant;
partitions `pending` into ready (`nextRunAt ≤ now`) and waiting; a tick with
no ready job is a no-op returning `false`; otherwise `pending` is replaced by
the waiting jobs and each ready job is processed sequentially in enqueue
order.  Returns the new state, whether any job was ready, and the ids of the
jobs whose handler was invoked. -/
def processTick (handlers : Handlers) (backoff now : Nat) (st : QState) :
    QState × Bool × List String :=
  if ¬ st.running ∨ st.processing then (st, false, [])
  else
    let ready := st.pending.filter (fun j => j.nextRunAt ≤ now)
    let waiting := st.pending.filter (fun j => ¬ j.nextRunAt ≤ now)
    if ready.isEmpty then (st, false, [])
    else
      let out := ready.foldl (processJob handlers backoff now) (waiting, st.failed, [])
      ({ st with pending := out.1, failed := out.2.1 }, true, out.2.2)

/-- A sequence of scheduling ticks at the given times, concatenating the
invocation logs. -/
def runTicks (handlers : Handlers) (backoff : Nat) :
    List Nat → QState → QState × List String
| [], st => (st, [])
| t :: ts, st =>
  let r1 := processTick handlers backoff t st
  let r2 := runTicks handlers backoff ts r1.1
  (r2.1, r1.2.2 ++ r2.2)

/-- `dueChain backoff d ts`: the tick times `ts` start no earlier than `d` and
consecutive ticks are at least `backoff` apart, so a job re-pended with the
fixed backoff is due again by the next tick. -/
def dueChain (backoff : Nat) : Nat → List Nat → Bool
| _, [] => true
| d, t :: ts => decide (d ≤ t) && dueChain backoff (t + backoff) ts

/-- The body of `drain()`'s `while (true)` loop, with explicit fuel: invoke
the tick-processing step until a step finds no ready job (or fuel runs out). -/
def drainFuel (handlers : Handlers) (backoff now : Nat) :
    Nat → QState → QState × List String
| 0, st => (st, [])
| n + 1, st =>
  match processTick handlers backoff now st with
  | (st1, false, log) => (st1, log)
  | (st1, true, log) =>
    let r := drainFuel handlers backoff now n st1
    (r.1, log ++ r.2)

/-- Fuel that always suffices for the drain loop to reach a tick with no
ready job: one step per remaining attempt of every pending job, plus slack. -/
def drainBound (st : QState) : Nat :=
  st.pending.foldl (fun a j => a + (j.maxAttempts - j.attempts) + 1) 0 + 2

/-- `drain()`: loop `processTick` until a step finds no ready job.  The loop
is modelled at a fixed `now` (the real loop re-reads the clock, but its
iterations are back-to-back, far quicker than any positive backoff). -/
def drain (handlers : Handlers) (backoff now : Nat) (st : QState) :
    QState × List String :=
  drainFuel handlers backoff now (drainBound st) st

end Queue

namespace Risk

/-- A weighted risk factor (`RiskFactor`); values and weights are rationals
(the source's decimal constants 0.8, 0.3, ... are exact decimals). -/
structure RiskFactor where
name : String
value : ℚ
weight : ℚ
description : String
deriving DecidableEq, Repr

/-- A stored risk evaluation (`RiskEvaluation`); `creditLimit` is kept as the
exact numeric value whose decimal string the source stores. -/
structure RiskEvaluation where
id : String
walletAddress : String
riskScore : Int
creditLimit : ℚ
interestRateBps : Int
factors : List RiskFactor
evaluatedAt : Nat
expiresAt : Nat
deriving DecidableEq, Repr

/-- The service's `RiskEvaluationResult`. -/
structure RiskResult where
walletAddress : String
riskScore : Int
creditLimit : ℚ
interestRateBps : Int
message : String
deriving DecidableEq, Repr

/-- `InMemoryRiskEvaluationRepository`: the `Map` of evaluations in insertion
order (keys are freshly generated, so `set` appends) plus a counter standing
in for `randomUUID`. -/
structure RiskRepo where
evaluations : List RiskEvaluation
nextId : Nat
deriving DecidableEq, Repr

/-- `save(evaluation)`: assign a fresh id and insert. -/
def save (repo : RiskRepo) (e : RiskEvaluation) : RiskEvaluation × RiskRepo :=
  let saved : RiskEvaluation := { e with id := "risk-" ++ toString repo.nextId }
  (saved, { evaluations := repo.evaluations ++ [saved], nextId := repo.nextId + 1 })

/-- `findLatestByWalletAddress`: filter by wallet, stable-sort by
`evaluatedAt` descending and take the first element — i.e. the
earliest-inserted entry among those with maximal `evaluatedAt`. -/
def findLatestByWalletAddress (repo : RiskRepo) (w : String) : Option RiskEvaluation :=
  (repo.evaluations.filter (fun e => e.walletAddress = w)).foldl
    (fun acc e =>
      match acc with
      | none => some e
      | some a => if a.evaluatedAt < e.evaluatedAt then some e else some a)
    none

/-- `isValid(walletAddress)`: the latest evaluation exists and
`expiresAt > new Date()` (strict). -/
def isValid (repo : RiskRepo) (w : String) (now : Nat) : Bool :=
  match findLatestByWalletAddress repo w with
  | none => false
  | some l => decide (now < l.expiresAt)

/-- `deleteExpired()` at time `now`: remove every entry with
`expiresAt < now` (strict) and return the count removed. -/
def deleteExpired (repo : RiskRepo) (now : Nat) : Nat × RiskRepo :=
  ((repo.evaluations.filter (fun e => e.expiresAt < now)).length,
   { repo with evaluations := repo.evaluations.filter (fun e => ¬ e.expiresAt < now) })

/-- The fixed mock factor set of `performRiskEvaluation`. -/
def mockFactors : List RiskFactor :=
  [{ name := "wallet_age", value := 4/5, weight := 3/10,
     description := "Age of the wallet in months" },
   { name := "transaction_volume", value := 3/5, weight := 2/5,
     description := "Historical transaction volume" },
   { name := "defi_participation", value := 7/10, weight := 3/10,
     description := "Participation in DeFi protocols" }]

/-- `performRiskEvaluation` at time `now`: weighted score scaled to 0-100,
`creditLimit = 1000 * (score/100)`,
`interestRateBps = round(500 + 500 * (1 - (100 - score)/100))`, validity
window of 24 hours; the id is assigned later by `save`. -/
def performRiskEvaluation (w : String) (now : Nat) : RiskEvaluation :=
  let factors := mockFactors
  let riskScoreRaw : ℚ := (factors.foldl (fun s f => s + f.value * f.weight) 0) * 100
  let baseCreditLimit : ℚ := 1000
  let baseRateBps : ℚ := 500
  let riskMultiplier : ℚ := (100 - riskScoreRaw) / 100
  { id := "", walletAddress := w, riskScore := round riskScoreRaw,
    creditLimit := baseCreditLimit * (riskScoreRaw / 100),
    interestRateBps := round (baseRateBps + baseRateBps * (1 - riskMultiplier)),
    factors := factors, evaluatedAt := now,
    expiresAt := now + 24 * 60 * 60 * 1000 }

/-- `evaluateRisk(request)` at time `now`: reject an empty wallet address;
without `forceRefresh`, serve the latest stored evaluation when it is still
valid, tagged as cached; otherwise compute, save and return a new
evaluation tagged as newly computed. -/
def evaluateRisk (repo : RiskRepo) (w : String) (forceRefresh : Bool) (now : Nat) :
    Except String (RiskResult × RiskRepo) :=
  if w = "" then .error "Wallet address is required"
  else
    let cached : Option RiskResult :=
      if forceRefresh then none
      else if isValid repo w now then
        match findLatestByWalletAddress repo w with
        | some c =>
          some { walletAddress := c.walletAddress, riskScore := c.riskScore,
                 creditLimit := c.creditLimit, interestRateBps := c.interestRateBps,
                 message := "Using cached risk evaluation" }
        | none => none
      else none
    match cached with
    | some r => .ok (r, repo)
    | none =>
      let e := performRiskEvaluation w now
      let repo' := (save repo e).2
      .ok ({ walletAddress := e.walletAddress, riskScore := e.riskScore,
             creditLimit := e.creditLimit, interestRateBps := e.interestRateBps,
             message := "New risk evaluation completed" }, repo')

end Risk

namespace Draw

theorem setLine_mem {store : List CreditLine} {i : String} {l' : CreditLine}
    {x : CreditLine} (hx : x ∈ setLine store i l') : x = l' ∨ x ∈ store := by
  induction store with
  | nil => simp [setLine] at hx
  | cons a as ih =>
    simp only [setLine] at hx
    by_cases h : a.id = i
    · simp [h] at hx
      rcases hx with h1 | h1
      · exact Or.inl h1
      · exact Or.inr (List.mem_cons_of_mem _ h1)
    · simp [h] at hx
      rcases hx with h1 | h1
      · exact Or.inr (by simp [h1])
      · rcases ih h1 with h2 | h2
        · exact Or.inl h2
        · exact Or.inr (List.mem_cons_of_mem _ h2)

/-- One draw attempt preserves the balance invariant of every line. -/
theorem applyDraw_inv {store : List CreditLine} {r : DrawRequest}
    (h : ∀ l ∈ store, balInv l) : ∀ l ∈ applyDraw store r, balInv l := by
  intro l hl
  unfold applyDraw drawFromCreditLine at hl
  cases hfind : store.find? (fun x => x.id = r.id) with
  | none => rw [hfind] at hl; exact h l hl
  | some line =>
    rw [hfind] at hl
    have hline : line ∈ store := List.mem_of_find?_eq_some hfind
    by_cases h1 : line.status = Status.active
    · by_cases h2 : line.borrowerId = r.borrowerId
      · by_cases h3 : r.amount ≤ 0
        · simp [h1, h2, h3] at hl; exact h l hl
        · by_cases h4 : line.limit < line.utilized + r.amount
          · simp [h1, h2, h3, h4] at hl; exact h l hl
          · simp [h1, h2, h3, h4] at hl
            rcases setLine_mem hl with h5 | h5
            · subst h5
              constructor
              · have := (h line hline).1
                have : (0 : Int) ≤ line.utilized + r.amount := by omega
                simpa using this
              · simp only [not_lt] at h4
                simpa using h4
            · exact h l h5
      · simp [h1, h2] at hl; exact h l hl
    · simp [h1] at hl; exact h l hl

/-- A sequence of draw attempts preserves the balance invariant. -/
theorem applyDraws_inv {store : List CreditLine} {rs : List DrawRequest}
    (h : ∀ l ∈ store, balInv l) : ∀ l ∈ applyDraws store rs, balInv l := by
  induction rs generalizing store with
  | nil => simpa [applyDraws] using h
  | cons r rs ih =>
    simpa [applyDraws] using ih (applyDraw_inv h)

/-- A rejected draw leaves the store unchanged. -/
theorem applyDraw_of_error {store : List CreditLine} {r : DrawRequest} {e : DrawErr}
    (h : drawFromCreditLine store r = .error e) : applyDraw store r = store := by
  unfold applyDraw
  rw [h]

end Draw

namespace Draw

/-- Every rejection of `drawFromCreditLine` leaves the store unchanged, and an
over-limit amount is always rejected (with one of the five errors). -/
theorem draw_reject_unchanged {store : List CreditLine} {r : DrawRequest} {line : CreditLine}
    (hfind : store.find? (fun l => l.id = r.id) = some line)
    (hover : line.limit < line.utilized + r.amount) :
    (∃ e, drawFromCreditLine store r = .error e) ∧ applyDraw store r = store := by
  by_cases h1 : line.status = Status.active
  · by_cases h2 : line.borrowerId = r.borrowerId
    · by_cases h3 : r.amount ≤ 0
      · refine ⟨⟨.invalidAmount, ?_⟩, ?_⟩ <;>
          simp [drawFromCreditLine, applyDraw, hfind, h1, h2, h3]
      · refine ⟨⟨.overLimit, ?_⟩, ?_⟩ <;>
          simp [drawFromCreditLine, applyDraw, hfind, h1, h2, h3, hover]
    · refine ⟨⟨.unauthorized, ?_⟩, ?_⟩ <;>
        simp [drawFromCreditLine, applyDraw, hfind, h1, h2]
  · refine ⟨⟨.invalidStatus, ?_⟩, ?_⟩ <;>
      simp [drawFromCreditLine, applyDraw, hfind, h1]

end Draw

/-- C1 (amended): starting from a store whose lines all satisfy
`0 ≤ utilized ≤ limit`, any sequence of draw attempts preserves the invariant;
a draw whose amount would push `utilized` past `limit` is always rejected and
leaves the store unchanged, and it is rejected with `OVER_LIMIT` precisely
when the line is `Active` and the borrower matches the line's owner (an
earlier validation failure otherwise takes precedence). -/
theorem claim_draw_balance_invariant :
    (∀ (store : List Draw.CreditLine) (rs : List Draw.DrawRequest),
       (∀ l ∈ store, Draw.balInv l) → ∀ l ∈ Draw.applyDraws store rs, Draw.balInv l) ∧
    (∀ (store : List Draw.CreditLine) (r : Draw.DrawRequest) (line : Draw.CreditLine),
       store.find? (fun l => l.id = r.id) = some line →
       line.limit < line.utilized + r.amount →
       (∃ e, Draw.drawFromCreditLine store r = .error e) ∧ Draw.applyDraw store r = store) ∧
    (∀ (store : List Draw.CreditLine) (r : Draw.DrawRequest) (line : Draw.CreditLine),
       store.find? (fun l => l.id = r.id) = some line →
       Draw.balInv line →
       line.status = .active →
       line.borrowerId = r.borrowerId →
       line.limit < line.utilized + r.amount →
       Draw.drawFromCreditLine store r = .error .overLimit) := by
  refine ⟨fun store rs h => Draw.applyDraws_inv h,
          fun store r line hfind hover => Draw.draw_reject_unchanged hfind hover,
          fun store r line hfind hinv h1 h2 hover => ?_⟩
  have h3 : ¬ r.amount ≤ 0 := by
    have := hinv.2
    omega
  simp [Draw.drawFromCreditLine, hfind, h1, h2, h3, hover]

/-- C1 witness: concrete instantiation of all three parts of the amended
balance-invariant theorem. -/
theorem claim_draw_balance_invariant_witness :
    ((∀ l ∈ [Draw.CreditLine.mk "line-1" "user-1" 1000 0 .active], Draw.balInv l) ∧
     (∀ l ∈ Draw.applyDraws [Draw.CreditLine.mk "line-1" "user-1" 1000 0 .active]
        [Draw.DrawRequest.mk "line-1" "user-1" 200,
         Draw.DrawRequest.mk "line-1" "user-1" 2000], Draw.balInv l)) ∧
    ((∃ e, Draw.drawFromCreditLine [Draw.CreditLine.mk "line-1" "user-1" 1000 200 .active]
        (Draw.DrawRequest.mk "line-1" "user-1" 2000) = .error e) ∧
     Draw.applyDraw [Draw.CreditLine.mk "line-1" "user-1" 1000 200 .active]
        (Draw.DrawRequest.mk "line-1" "user-1" 2000) =
        [Draw.CreditLine.mk "line-1" "user-1" 1000 200 .active]) ∧
    Draw.drawFromCreditLine [Draw.CreditLine.mk "line-1" "user-1" 1000 200 .active]
        (Draw.DrawRequest.mk "line-1" "user-1" 2000) = .error .overLimit :=
  ⟨⟨by decide,
    claim_draw_balance_invariant.1 _ _ (by decide) ⟩,
   claim_draw_balance_invariant.2.1 _ _ (Draw.CreditLine.mk "line-1" "user-1" 1000 200 .active)
     (by decide) (by decide),
   claim_draw_balance_invariant.2.2 _ _ (Draw.CreditLine.mk "line-1" "user-1" 1000 200 .active)
     (by decide) (by decide) (by decide) (by decide) (by decide)⟩

/-- C1 counterexample: an over-limit draw by a non-owner on an `Active` line is
rejected with `UNAUTHORIZED`, not `OVER_LIMIT`, refuting the claim that any
draw that would violate the balance invariant is rejected with `OverLimit`. -/
theorem claim_draw_balance_invariant_counterexample :
    Draw.drawFromCreditLine [Draw.CreditLine.mk "line-1" "user-1" 1000 0 .active]
        (Draw.DrawRequest.mk "line-1" "hacker" 2000) = .error .unauthorized ∧
    ((0 : Int) + 2000 > 1000) ∧
    Draw.DrawErr.unauthorized ≠ Draw.DrawErr.overLimit := by
  refine ⟨?_, by decide, by decide⟩
  rfl


namespace Ledger

theorem find?_setTxs_self (l : List (String × List Transaction)) (i : String)
    (v : List Transaction) :
    (setTxs l i v).find? (fun p => p.1 = i) = some (i, v) := by
  induction l with
  | nil => simp [setTxs]
  | cons p ps ih =>
    by_cases h : p.1 = i
    · simp [setTxs, h]
    · simp [setTxs, h, ih]

theorem find?_setTxs_other (l : List (String × List Transaction)) (i j : String)
    (v : List Transaction) (hij : j ≠ i) :
    (setTxs l i v).find? (fun p => p.1 = j) = l.find? (fun p => p.1 = j) := by
  have hij' : i ≠ j := Ne.symm hij
  induction l with
  | nil => simp [setTxs, hij']
  | cons p ps ih =>
    by_cases h : p.1 = i
    · have hpj : ¬ p.1 = j := fun hp => hij' (h ▸ hp)
      simp [setTxs, h, hpj, hij']
    · by_cases hpj : p.1 = j
      · simp [setTxs, h, hpj, hij]
      · simp [setTxs, h, hpj, ih]

/-- `recordTransaction` appends exactly one entry to the target line's list. -/
theorem transactionsFor_record_self (st : LedgerState) (i : String)
    (ty : TransactionType) (ts : Nat) (a : Option Int) (c : Option String)
    (m : String) :
    transactionsFor (recordTransaction st i ty ts a c m) i =
      transactionsFor st i ++
        [{ id := "tx-" ++ toString st.nextTx, creditLineId := i, type := ty,
           amount := a, currency := c, timestamp := ts, metadata := m }] := by
  unfold transactionsFor recordTransaction
  rw [find?_setTxs_self]
  rfl

/-- `recordTransaction` leaves every other line's transaction list unchanged. -/
theorem transactionsFor_record_other (st : LedgerState) (i j : String)
    (ty : TransactionType) (ts : Nat) (a : Option Int) (c : Option String)
    (m : String) (hij : j ≠ i) :
    transactionsFor (recordTransaction st i ty ts a c m) j = transactionsFor st j := by
  unfold transactionsFor recordTransaction
  rw [find?_setTxs_other _ _ _ _ hij]

theorem mem_filterByType {txs : List Transaction} {o : Option TransactionType}
    {tx : Transaction} (h : tx ∈ filterByType txs o) :
    tx ∈ txs ∧ ∀ ty, o = some ty → tx.type = ty := by
  cases o with
  | none => exact ⟨h, by intro ty hc; cases hc⟩
  | some ty =>
    rw [filterByType, List.mem_filter] at h
    refine ⟨h.1, fun ty' hty' => ?_⟩
    cases hty'
    exact of_decide_eq_true h.2

theorem mem_filterFrom {txs : List Transaction} {o : Option Nat}
    {tx : Transaction} (h : tx ∈ filterFrom txs o) :
    tx ∈ txs ∧ ∀ a, o = some a → a ≤ tx.timestamp := by
  cases o with
  | none => exact ⟨h, by intro a hc; cases hc⟩
  | some a =>
    rw [filterFrom, List.mem_filter] at h
    refine ⟨h.1, fun a' ha' => ?_⟩
    cases ha'
    exact of_decide_eq_true h.2

theorem mem_filterTo {txs : List Transaction} {o : Option Nat}
    {tx : Transaction} (h : tx ∈ filterTo txs o) :
    tx ∈ txs ∧ ∀ b, o = some b → tx.timestamp ≤ b := by
  cases o with
  | none => exact ⟨h, by intro b hc; cases hc⟩
  | some b =>
    rw [filterTo, List.mem_filter] at h
    refine ⟨h.1, fun b' hb' => ?_⟩
    cases hb'
    exact of_decide_eq_true h.2

/-- Every entry surviving the filter pipeline lies in the requested window. -/
theorem mem_applyFilters {txs : List Transaction} {f : TransactionFilters}
    {tx : Transaction} (h : tx ∈ applyFilters txs f) :
    tx ∈ txs ∧
    (∀ ty, f.type = some ty → tx.type = ty) ∧
    (∀ a, f.fromTs = some a → a ≤ tx.timestamp) ∧
    (∀ b, f.toTs = some b → tx.timestamp ≤ b) := by
  unfold applyFilters at h
  obtain ⟨h2, hto⟩ := mem_filterTo h
  obtain ⟨h1, hfrom⟩ := mem_filterFrom h2
  obtain ⟨h0, hty⟩ := mem_filterByType h1
  exact ⟨h0, hty, hfrom, hto⟩

theorem flatten_page_slices {α : Type} (xs : List α) (l : Nat) :
    ∀ k, ((List.range k).map (fun p => (xs.drop (p * l)).take l)).flatten =
      xs.take (k * l) := by
  intro k
  induction k with
  | zero => simp
  | succ k ih =>
    rw [List.range_succ, List.map_append, List.flatten_append, ih]
    simp only [List.map_cons, List.map_nil, List.flatten_cons, List.flatten_nil,
      List.append_nil]
    rw [Nat.succ_mul, List.take_add]

theorem le_max_ceilDiv_mul (total limit : Nat) (h : 1 ≤ limit) :
    total ≤ max 1 (ceilDiv total limit) * limit := by
  unfold ceilDiv
  rcases Nat.eq_zero_or_pos ((total + limit - 1) / limit) with hq | hq
  · rw [hq]
    have h0 : total + limit - 1 < limit := by
      by_contra hc
      have := Nat.div_le_div_right (c := limit) (Nat.le_of_not_lt hc)
      rw [Nat.div_self (by omega)] at this
      omega
    omega
  · rw [max_eq_right hq, Nat.mul_comm]
    have h1 := Nat.div_add_mod (total + limit - 1) limit
    have h2 : (total + limit - 1) % limit < limit := Nat.mod_lt _ (by omega)
    generalize hP : limit * ((total + limit - 1) / limit) = P at h1 ⊢
    omega

theorem head?_take {α : Type} {xs : List α} {n : Nat} (h : 1 ≤ n) :
    (xs.take n).head? = xs.head? := by
  cases xs with
  | nil => simp
  | cons x xs =>
    cases n with
    | zero => omega
    | succ n => simp

end Ledger

/-- C2: `suspend` succeeds exactly from `Active` (moving the line to
`Suspended`) and `close` succeeds exactly from a non-`Closed` status (moving
it to `Closed`); any other request fails with `InvalidTransition` carrying the
line's current status and the attempted action.  The embedding produces a
successor state only on success, mirroring that the source throws before
performing any mutation, so a failed transition leaves the stored line, its
events and the transaction log untouched. -/
theorem claim_status_machine :
    ∀ (st : Ledger.LedgerState) (i : String) (ts : Nat) (line : Ledger.CreditLine),
      Ledger.lookupLine st i = some line →
      ((line.status = .active →
         ∃ st' line', Ledger.suspendCreditLine st i ts = .ok (st', line') ∧
           line'.status = .suspended) ∧
       (line.status ≠ .active →
         Ledger.suspendCreditLine st i ts =
           .error (.invalidTransition line.status "suspend")) ∧
       (line.status ≠ .closed →
         ∃ st' line', Ledger.closeCreditLine st i ts = .ok (st', line') ∧
           line'.status = .closed) ∧
       (line.status = .closed →
         Ledger.closeCreditLine st i ts =
           .error (.invalidTransition line.status "close"))) := by
  intro st i ts line hfind
  refine ⟨?_, ?_, ?_, ?_⟩
  · intro h
    cases hres : Ledger.suspendCreditLine st i ts with
    | error e =>
      exfalso
      simp [Ledger.suspendCreditLine, hfind, h] at hres
    | ok p =>
      obtain ⟨st', l'⟩ := p
      refine ⟨st', l', rfl, ?_⟩
      simp [Ledger.suspendCreditLine, hfind, h] at hres
      obtain ⟨h1, h2⟩ := hres
      subst h2
      rfl
  · intro h
    simp [Ledger.suspendCreditLine, hfind, h]
  · intro h
    cases hres : Ledger.closeCreditLine st i ts with
    | error e =>
      exfalso
      simp [Ledger.closeCreditLine, hfind, h] at hres
    | ok p =>
      obtain ⟨st', l'⟩ := p
      refine ⟨st', l', rfl, ?_⟩
      simp [Ledger.closeCreditLine, hfind, h] at hres
      obtain ⟨h1, h2⟩ := hres
      subst h2
      rfl
  · intro h
    simp [Ledger.closeCreditLine, hfind, h]

/-- C2 witness: on a freshly created active line, suspending succeeds; on a
suspended line, suspending again fails with `InvalidTransition` and closing
succeeds. -/
theorem claim_status_machine_witness :
    (Ledger.lookupLine (Ledger.createCreditLine ⟨[], [], 0⟩ "L" .active 0).1 "L" =
       some ⟨"L", .active, 0, 0, [⟨"created", 0⟩]⟩ ∧
     (∃ st' line',
        Ledger.suspendCreditLine (Ledger.createCreditLine ⟨[], [], 0⟩ "L" .active 0).1 "L" 5 =
          .ok (st', line') ∧ line'.status = .suspended)) ∧
    (Ledger.lookupLine (Ledger.createCreditLine ⟨[], [], 0⟩ "L" .suspended 0).1 "L" =
       some ⟨"L", .suspended, 0, 0, [⟨"created", 0⟩]⟩ ∧
     Ledger.suspendCreditLine (Ledger.createCreditLine ⟨[], [], 0⟩ "L" .suspended 0).1 "L" 5 =
       .error (.invalidTransition .suspended "suspend") ∧
     (∃ st' line',
        Ledger.closeCreditLine (Ledger.createCreditLine ⟨[], [], 0⟩ "L" .suspended 0).1 "L" 5 =
          .ok (st', line') ∧ line'.status = .closed)) :=
  ⟨⟨by decide,
    (claim_status_machine (Ledger.createCreditLine ⟨[], [], 0⟩ "L" .active 0).1 "L" 5
      ⟨"L", .active, 0, 0, [⟨"created", 0⟩]⟩ (by decide)).1 rfl⟩,
   ⟨by decide,
    (claim_status_machine (Ledger.createCreditLine ⟨[], [], 0⟩ "L" .suspended 0).1 "L" 5
      ⟨"L", .suspended, 0, 0, [⟨"created", 0⟩]⟩ (by decide)).2.1 (by decide),
    (claim_status_machine (Ledger.createCreditLine ⟨[], [], 0⟩ "L" .suspended 0).1 "L" 5
      ⟨"L", .suspended, 0, 0, [⟨"created", 0⟩]⟩ (by decide)).2.2.1 (by decide)⟩⟩

/-- C6: for a known line and `page, limit ≥ 1`, `getTransactions` applies the
type filter, then the inclusive from/to range filters, takes `total` as the
filtered count, slices indices `(page-1)*limit` to `(page-1)*limit + limit`,
and reports `totalPages = max 1 (ceil (total / limit))`; every returned entry
lies inside the requested window, consecutive pages tile the filtered list
without skips or duplicates, and an unknown line id yields `NotFound`. -/
theorem claim_getTransactions_pagination :
    (∀ (st : Ledger.LedgerState) (i : String) (f : Ledger.TransactionFilters)
       (page limit : Nat) (line : Ledger.CreditLine),
       Ledger.lookupLine st i = some line → 1 ≤ page → 1 ≤ limit →
       ∃ r, Ledger.getTransactions st i f page limit = .ok r ∧
         r.transactions =
           ((Ledger.applyFilters (Ledger.transactionsFor st i) f).drop
              ((page - 1) * limit)).take limit ∧
         r.total = (Ledger.applyFilters (Ledger.transactionsFor st i) f).length ∧
         r.page = page ∧ r.limit = limit ∧
         r.totalPages = max 1 (Ledger.ceilDiv r.total limit) ∧
         r.total ≤ r.totalPages * limit ∧
         (∀ tx ∈ r.transactions,
           tx ∈ Ledger.transactionsFor st i ∧
           (∀ ty, f.type = some ty → tx.type = ty) ∧
           (∀ a, f.fromTs = some a → a ≤ tx.timestamp) ∧
           (∀ b, f.toTs = some b → tx.timestamp ≤ b))) ∧
    (∀ (st : Ledger.LedgerState) (i : String) (f : Ledger.TransactionFilters)
       (limit k : Nat),
       ((List.range k).map
          (fun p => ((Ledger.applyFilters (Ledger.transactionsFor st i) f).drop
            (p * limit)).take limit)).flatten =
         (Ledger.applyFilters (Ledger.transactionsFor st i) f).take (k * limit)) ∧
    (∀ (st : Ledger.LedgerState) (i : String) (f : Ledger.TransactionFilters)
       (page limit : Nat),
       Ledger.lookupLine st i = none →
       Ledger.getTransactions st i f page limit = .error (.notFound i)) := by
  refine ⟨?_, ?_, ?_⟩
  · intro st i f page limit line hlook hp hlim
    refine ⟨{
        transactions := ((Ledger.applyFilters (Ledger.transactionsFor st i) f).drop
          ((page - 1) * limit)).take limit,
        total := (Ledger.applyFilters (Ledger.transactionsFor st i) f).length,
        page := page,
        limit := limit,
        totalPages := max 1 (Ledger.ceilDiv
          (Ledger.applyFilters (Ledger.transactionsFor st i) f).length limit) },
      by simp [Ledger.getTransactions, hlook], rfl, rfl, rfl, rfl, rfl, ?_, ?_⟩
    · exact Ledger.le_max_ceilDiv_mul _ _ hlim
    · intro tx htx
      have h1 : tx ∈ Ledger.applyFilters (Ledger.transactionsFor st i) f :=
        List.drop_subset _ _ (List.take_subset _ _ htx)
      obtain ⟨h0, hw⟩ := Ledger.mem_applyFilters h1
      exact ⟨h0, hw⟩
  · intro st i f limit k
    exact Ledger.flatten_page_slices _ _ _
  · intro st i f page limit hlook
    simp [Ledger.getTransactions, hlook]

/-- C6 witness: the pagination characterisation instantiated on a freshly
created line holding one `status_change` transaction. -/
theorem claim_getTransactions_pagination_witness :
    (Ledger.lookupLine (Ledger.createCreditLine ⟨[], [], 0⟩ "L" .active 0).1 "L" =
       some ⟨"L", .active, 0, 0, [⟨"created", 0⟩]⟩ ∧ 1 ≤ 1 ∧ 1 ≤ 20) ∧
    (∃ r, Ledger.getTransactions (Ledger.createCreditLine ⟨[], [], 0⟩ "L" .active 0).1 "L"
        ⟨some .statusChange, some 0, some 5⟩ 1 20 = .ok r ∧
      r.transactions =
        ((Ledger.applyFilters
            (Ledger.transactionsFor (Ledger.createCreditLine ⟨[], [], 0⟩ "L" .active 0).1 "L")
            ⟨some .statusChange, some 0, some 5⟩).drop ((1 - 1) * 20)).take 20 ∧
      r.total = (Ledger.applyFilters
            (Ledger.transactionsFor (Ledger.createCreditLine ⟨[], [], 0⟩ "L" .active 0).1 "L")
            ⟨some .statusChange, some 0, some 5⟩).length ∧
      r.page = 1 ∧ r.limit = 20 ∧
      r.totalPages = max 1 (Ledger.ceilDiv r.total 20) ∧
      r.total ≤ r.totalPages * 20 ∧
      (∀ tx ∈ r.transactions,
        tx ∈ Ledger.transactionsFor (Ledger.createCreditLine ⟨[], [], 0⟩ "L" .active 0).1 "L" ∧
        (∀ ty, (some Ledger.TransactionType.statusChange : Option Ledger.TransactionType) =
           some ty → tx.type = ty) ∧
        (∀ a, (some 0 : Option Nat) = some a → a ≤ tx.timestamp) ∧
        (∀ b, (some 5 : Option Nat) = some b → tx.timestamp ≤ b))) :=
  ⟨⟨by decide, by decide, by decide⟩,
   claim_getTransactions_pagination.1
     (Ledger.createCreditLine ⟨[], [], 0⟩ "L" .active 0).1 "L"
     ⟨some .statusChange, some 0, some 5⟩ 1 20
     ⟨"L", .active, 0, 0, [⟨"created", 0⟩]⟩ (by decide) (by decide) (by decide)⟩

/-- C7 counterexample: on a line whose ledger holds transactions appended at
times 0, 10 and 20, page 1 of `getTransactions` starts with the timestamp-0
entry (the earliest), while the most recently appended matching transaction
has timestamp 20 — the read is oldest-first, not newest-first. -/
theorem claim_tx_read_order_counterexample :
    ((Ledger.getTransactions
        (Ledger.recordTransaction
          (Ledger.recordTransaction
            (Ledger.createCreditLine ⟨[], [], 0⟩ "L" .active 0).1
            "L" .draw 10 (some 100) (some "USD") "")
          "L" .draw 20 (some 50) (some "USD") "")
        "L" ⟨none, none, none⟩ 1 20).map
        (fun r => r.transactions.map (fun tx => tx.timestamp)) = .ok [0, 10, 20]) ∧
    ((Ledger.transactionsFor
        (Ledger.recordTransaction
          (Ledger.recordTransaction
            (Ledger.createCreditLine ⟨[], [], 0⟩ "L" .active 0).1
            "L" .draw 10 (some 100) (some "USD") "")
          "L" .draw 20 (some 50) (some "USD") "")
        "L").getLast?.map (fun tx => tx.timestamp) = some 20) ∧
    (0 : Nat) ≠ 20 :=
  ⟨rfl, rfl, by decide⟩

/-- C7 (amended): the stored transaction list is append-only —
`recordTransaction` appends exactly one entry to the target line's list and
leaves every other line's list unchanged — and `getTransactions` exposes the
entries in insertion order, oldest first: the first element of page 1 is the
earliest appended matching transaction. -/
theorem claim_tx_read_order :
    (∀ (st : Ledger.LedgerState) (i : String) (ty : Ledger.TransactionType)
       (ts : Nat) (a : Option Int) (c : Option String) (m : String),
       Ledger.transactionsFor (Ledger.recordTransaction st i ty ts a c m) i =
         Ledger.transactionsFor st i ++
           [{ id := "tx-" ++ toString st.nextTx, creditLineId := i, type := ty,
              amount := a, currency := c, timestamp := ts, metadata := m }] ∧
       (∀ j, j ≠ i →
         Ledger.transactionsFor (Ledger.recordTransaction st i ty ts a c m) j =
           Ledger.transactionsFor st j)) ∧
    (∀ (st : Ledger.LedgerState) (i : String) (f : Ledger.TransactionFilters)
       (limit : Nat) (line : Ledger.CreditLine),
       Ledger.lookupLine st i = some line → 1 ≤ limit →
       ∃ r, Ledger.getTransactions st i f 1 limit = .ok r ∧
         r.transactions.head? =
           (Ledger.applyFilters (Ledger.transactionsFor st i) f).head?) := by
  refine ⟨?_, ?_⟩
  · intro st i ty ts a c m
    exact ⟨Ledger.transactionsFor_record_self st i ty ts a c m,
      fun j hj => Ledger.transactionsFor_record_other st i j ty ts a c m hj⟩
  · intro st i f limit line hlook hlim
    refine ⟨{
        transactions := ((Ledger.applyFilters (Ledger.transactionsFor st i) f).drop
          ((1 - 1) * limit)).take limit,
        total := (Ledger.applyFilters (Ledger.transactionsFor st i) f).length,
        page := 1,
        limit := limit,
        totalPages := max 1 (Ledger.ceilDiv
          (Ledger.applyFilters (Ledger.transactionsFor st i) f).length limit) },
      by simp [Ledger.getTransactions, hlook], ?_⟩
    have h0 : (1 - 1) * limit = 0 := by omega
    rw [h0, List.drop_zero]
    exact Ledger.head?_take hlim

/-- C7 witness: the amended ordering theorem instantiated on a freshly
created line. -/
theorem claim_tx_read_order_witness :
    (Ledger.transactionsFor
        (Ledger.recordTransaction (Ledger.createCreditLine ⟨[], [], 0⟩ "L" .active 0).1
          "L" .draw 10 (some 100) (some "USD") "") "L" =
      Ledger.transactionsFor (Ledger.createCreditLine ⟨[], [], 0⟩ "L" .active 0).1 "L" ++
        [{ id := "tx-1", creditLineId := "L", type := .draw, amount := some 100,
           currency := some "USD", timestamp := 10, metadata := "" }]) ∧
    (Ledger.lookupLine (Ledger.createCreditLine ⟨[], [], 0⟩ "L" .active 0).1 "L" =
       some ⟨"L", .active, 0, 0, [⟨"created", 0⟩]⟩ ∧ 1 ≤ 20) ∧
    (∃ r, Ledger.getTransactions (Ledger.createCreditLine ⟨[], [], 0⟩ "L" .active 0).1 "L"
        ⟨none, none, none⟩ 1 20 = .ok r ∧
      r.transactions.head? =
        (Ledger.applyFilters
          (Ledger.transactionsFor (Ledger.createCreditLine ⟨[], [], 0⟩ "L" .active 0).1 "L")
          ⟨none, none, none⟩).head?) :=
  ⟨(claim_tx_read_order.1 (Ledger.createCreditLine ⟨[], [], 0⟩ "L" .active 0).1
      "L" .draw 10 (some 100) (some "USD") "").1,
   ⟨by decide, by decide⟩,
   claim_tx_read_order.2 (Ledger.createCreditLine ⟨[], [], 0⟩ "L" .active 0).1 "L"
     ⟨none, none, none⟩ 20 ⟨"L", .active, 0, 0, [⟨"created", 0⟩]⟩ (by decide) (by decide)⟩

/-- C8 (modelled from the spec, see `Repay.repayCreditLine`): repay validates
in draw order minus the borrower and over-limit checks — unknown line yields
NotFound, non-active status yields InvalidStatus, non-positive amount yields
InvalidAmount — and on success decreases `utilized` by `amount` floored at 0
and appends exactly one `repayment` transaction to the ledger. -/
theorem claim_repay :
    ∀ (store : List Draw.CreditLine) (txs : List Ledger.Transaction) (i : String)
      (amount : Int) (ts : Nat) (txid : String),
      (store.find? (fun l => l.id = i) = none →
        Repay.repayCreditLine store txs i amount ts txid = .error .notFound) ∧
      (∀ line, store.find? (fun l => l.id = i) = some line →
        (line.status ≠ .active →
          Repay.repayCreditLine store txs i amount ts txid = .error .invalidStatus) ∧
        (line.status = .active → amount ≤ 0 →
          Repay.repayCreditLine store txs i amount ts txid = .error .invalidAmount) ∧
        (line.status = .active → 0 < amount →
          Repay.repayCreditLine store txs i amount ts txid =
            .ok (Draw.setLine store i { line with utilized := max 0 (line.utilized - amount) },
                 txs ++ [Ledger.Transaction.mk txid i .repayment (some amount) none ts ""],
                 { line with utilized := max 0 (line.utilized - amount) }))) := by
  intro store txs i amount ts txid
  refine ⟨?_, ?_⟩
  · intro h
    simp [Repay.repayCreditLine, h]
  · intro line hfind
    refine ⟨?_, ?_, ?_⟩
    · intro h
      simp [Repay.repayCreditLine, hfind, h]
    · intro h1 h2
      simp [Repay.repayCreditLine, hfind, h1, h2]
    · intro h1 h2
      have h3 : ¬ amount ≤ 0 := by omega
      simp [Repay.repayCreditLine, hfind, h1, h3]

/-- C8 witness: repaying 800 on an active line with `utilized = 500` floors
the result at 0 and appends one repayment transaction; the error cases fire
on a closed line and on a zero amount. -/
theorem claim_repay_witness :
    ((List.find? (fun l => l.id = "line-1")
        [Draw.CreditLine.mk "line-1" "user-1" 1000 500 .active] =
      some (Draw.CreditLine.mk "line-1" "user-1" 1000 500 .active)) ∧
     (0 : Int) < 800) ∧
    Repay.repayCreditLine [Draw.CreditLine.mk "line-1" "user-1" 1000 500 .active]
        [] "line-1" 800 7 "tx-a" =
      .ok ([Draw.CreditLine.mk "line-1" "user-1" 1000 0 .active],
           [Ledger.Transaction.mk "tx-a" "line-1" .repayment (some 800) none 7 ""],
           Draw.CreditLine.mk "line-1" "user-1" 1000 0 .active) ∧
    Repay.repayCreditLine [Draw.CreditLine.mk "line-1" "user-1" 1000 500 .closed]
        [] "line-1" 100 7 "tx-b" = .error .invalidStatus ∧
    Repay.repayCreditLine [Draw.CreditLine.mk "line-1" "user-1" 1000 500 .active]
        [] "line-1" 0 7 "tx-c" = .error .invalidAmount :=
  ⟨⟨by decide, by decide⟩,
   by
    have h := ((claim_repay [Draw.CreditLine.mk "line-1" "user-1" 1000 500 .active]
        [] "line-1" 800 7 "tx-a").2
        (Draw.CreditLine.mk "line-1" "user-1" 1000 500 .active) (by decide)).2.2
        rfl (by decide)
    simpa using h,
   by
    have h := ((claim_repay [Draw.CreditLine.mk "line-1" "user-1" 1000 500 .closed]
        [] "line-1" 100 7 "tx-b").2
        (Draw.CreditLine.mk "line-1" "user-1" 1000 500 .closed) (by decide)).1 (by decide)
    exact h,
   by
    have h := ((claim_repay [Draw.CreditLine.mk "line-1" "user-1" 1000 500 .active]
        [] "line-1" 0 7 "tx-c").2
        (Draw.CreditLine.mk "line-1" "user-1" 1000 500 .active) (by decide)).2.1
        rfl (by decide)
    exact h⟩

/-- C5: `drawFromCreditLine` applies its checks in a fixed order and the first
failing check determines the error: line exists (else NotFound), status is
Active (else InvalidStatus), borrower matches the owner (else Unauthorized),
amount is positive (else InvalidAmount), and the limit is respected (else
OverLimit); in particular a draw by a wrong borrower on a non-Active line
yields InvalidStatus, and when every check passes the draw succeeds. -/
theorem claim_draw_validation_order :
    ∀ (store : List Draw.CreditLine) (r : Draw.DrawRequest),
      (store.find? (fun l => l.id = r.id) = none →
        Draw.drawFromCreditLine store r = .error .notFound) ∧
      (∀ line, store.find? (fun l => l.id = r.id) = some line →
        (line.status ≠ .active →
          Draw.drawFromCreditLine store r = .error .invalidStatus) ∧
        (line.status ≠ .active → line.borrowerId ≠ r.borrowerId →
          Draw.drawFromCreditLine store r = .error .invalidStatus) ∧
        (line.status = .active → line.borrowerId ≠ r.borrowerId →
          Draw.drawFromCreditLine store r = .error .unauthorized) ∧
        (line.status = .active → line.borrowerId = r.borrowerId → r.amount ≤ 0 →
          Draw.drawFromCreditLine store r = .error .invalidAmount) ∧
        (line.status = .active → line.borrowerId = r.borrowerId → 0 < r.amount →
          line.limit < line.utilized + r.amount →
          Draw.drawFromCreditLine store r = .error .overLimit) ∧
        (line.status = .active → line.borrowerId = r.borrowerId → 0 < r.amount →
          line.utilized + r.amount ≤ line.limit →
          Draw.drawFromCreditLine store r =
            .ok (Draw.setLine store r.id { line with utilized := line.utilized + r.amount },
                 { line with utilized := line.utilized + r.amount }))) := by
  intro store r
  refine ⟨?_, ?_⟩
  · intro h
    simp [Draw.drawFromCreditLine, h]
  · intro line hfind
    refine ⟨?_, ?_, ?_, ?_, ?_, ?_⟩
    · intro h
      simp [Draw.drawFromCreditLine, hfind, h]
    · intro h _
      simp [Draw.drawFromCreditLine, hfind, h]
    · intro h1 h2
      simp [Draw.drawFromCreditLine, hfind, h1, h2]
    · intro h1 h2 h3
      simp [Draw.drawFromCreditLine, hfind, h1, h2, h3]
    · intro h1 h2 h3 h4
      have h3' : ¬ r.amount ≤ 0 := by omega
      simp [Draw.drawFromCreditLine, hfind, h1, h2, h3', h4]
    · intro h1 h2 h3 h4
      have h3' : ¬ r.amount ≤ 0 := by omega
      have h4' : ¬ line.limit < line.utilized + r.amount := by omega
      simp [Draw.drawFromCreditLine, hfind, h1, h2, h3', h4']

/-- C5 witness: on a store with one suspended line, a draw by a wrong
borrower yields InvalidStatus (not Unauthorized); the success case and the
NotFound case instantiated as well. -/
theorem claim_draw_validation_order_witness :
    ((List.find? (fun l => l.id = "line-1")
        [Draw.CreditLine.mk "line-1" "user-1" 1000 0 .suspended] =
      some (Draw.CreditLine.mk "line-1" "user-1" 1000 0 .suspended)) ∧
     Draw.Status.suspended ≠ Draw.Status.active ∧ "user-1" ≠ "hacker") ∧
    Draw.drawFromCreditLine [Draw.CreditLine.mk "line-1" "user-1" 1000 0 .suspended]
      (Draw.DrawRequest.mk "line-1" "hacker" 100) = .error .invalidStatus ∧
    Draw.drawFromCreditLine [Draw.CreditLine.mk "line-1" "user-1" 1000 0 .active]
      (Draw.DrawRequest.mk "line-1" "user-1" 100) =
      .ok ([Draw.CreditLine.mk "line-1" "user-1" 1000 100 .active],
           Draw.CreditLine.mk "line-1" "user-1" 1000 100 .active) ∧
    Draw.drawFromCreditLine [] (Draw.DrawRequest.mk "line-9" "user-1" 100) =
      .error .notFound :=
  ⟨⟨by decide, by decide, by decide⟩,
   by
    have h := ((claim_draw_validation_order
        [Draw.CreditLine.mk "line-1" "user-1" 1000 0 .suspended]
        (Draw.DrawRequest.mk "line-1" "hacker" 100)).2
        (Draw.CreditLine.mk "line-1" "user-1" 1000 0 .suspended) (by decide)).2.1
        (by decide) (by decide)
    exact h,
   by
    have h := ((claim_draw_validation_order
        [Draw.CreditLine.mk "line-1" "user-1" 1000 0 .active]
        (Draw.DrawRequest.mk "line-1" "user-1" 100)).2
        (Draw.CreditLine.mk "line-1" "user-1" 1000 0 .active) (by decide)).2.2.2.2.2
        rfl rfl (by decide) (by decide)
    simpa using h,
   (claim_draw_validation_order [] (Draw.DrawRequest.mk "line-9" "user-1" 100)).1
     (by decide)⟩


namespace Queue

/-- A tick over an empty pending set is a no-op. -/
theorem processTick_no_pending (hs : Handlers) (backoff now : Nat) (F : List Job) :
    processTick hs backoff now ⟨[], F, true, false⟩ = (⟨[], F, true, false⟩, false, []) := by
  simp [processTick]

/-- Any sequence of ticks over an empty pending set is a no-op. -/
theorem runTicks_no_pending (hs : Handlers) (backoff : Nat) (ts : List Nat)
    (F : List Job) :
    runTicks hs backoff ts ⟨[], F, true, false⟩ = (⟨[], F, true, false⟩, []) := by
  induction ts with
  | nil => rfl
  | cons t ts ih => simp [runTicks, processTick_no_pending, ih]

/-- A due tick on a single failing job with retries left re-pends it with the
fixed backoff. -/
theorem tick_fail_repend {hs : Handlers} {h : Job → Bool} {backoff t : Nat}
    {j : Job} {F : List Job}
    (hh : hs j.type = some h) (hf : ∀ x, h x = false)
    (hle : j.nextRunAt ≤ t) (hlt : j.attempts + 1 < j.maxAttempts) :
    processTick hs backoff t ⟨[j], F, true, false⟩ =
      (⟨[{ j with attempts := j.attempts + 1, updatedAt := t, nextRunAt := t + backoff }],
        F, true, false⟩, true, [j.id]) := by
  simp [processTick, processJob, hh, hf, hle, hlt]

/-- A due tick on a single failing job on its last attempt quarantines it. -/
theorem tick_fail_final {hs : Handlers} {h : Job → Bool} {backoff t : Nat}
    {j : Job} {F : List Job}
    (hh : hs j.type = some h) (hf : ∀ x, h x = false)
    (hle : j.nextRunAt ≤ t) (hge : ¬ j.attempts + 1 < j.maxAttempts) :
    processTick hs backoff t ⟨[j], F, true, false⟩ =
      (⟨[], F ++ [{ j with attempts := j.attempts + 1, updatedAt := t }], true, false⟩,
       true, [j.id]) := by
  simp [processTick, processJob, hh, hf, hle, hge]

/-- Running an always-failing job through a chain of due ticks: while ticks
remain short of the retry budget the job stays pending with its attempt count
equal to the number of ticks; once the budget is reached it moves to the
failed set once and for all, with `maxAttempts - attempts` handler
invocations in total. -/
theorem runTicks_always_fail (hs : Handlers) (backoff : Nat) (h : Job → Bool)
    (ty : String) (hh : hs ty = some h) (hf : ∀ x, h x = false) :
    ∀ (ts : List Nat) (j : Job) (F : List Job) (a M : Nat),
      j.type = ty → j.attempts = a → j.maxAttempts = M → a < M →
      dueChain backoff j.nextRunAt ts = true →
      (if ts.length < M - a then
        ∃ j', runTicks hs backoff ts ⟨[j], F, true, false⟩ =
            (⟨[j'], F, true, false⟩, List.replicate ts.length j.id) ∧
          j'.id = j.id ∧ j'.type = ty ∧ j'.attempts = a + ts.length ∧
          j'.maxAttempts = M
      else
        ∃ j', runTicks hs backoff ts ⟨[j], F, true, false⟩ =
            (⟨[], F ++ [j'], true, false⟩, List.replicate (M - a) j.id) ∧
          j'.id = j.id ∧ j'.type = ty ∧ j'.attempts = M) := by
  intro ts
  induction ts with
  | nil =>
    intro j F a M hty ha hM haM _
    rw [if_pos (show ([] : List Nat).length < M - a by
      simp only [List.length_nil]; omega)]
    exact ⟨j, by simp [runTicks], rfl, hty, by simp [ha], hM⟩
  | cons t ts ih =>
    intro j F a M hty ha hM haM hchain
    have hty' : hs j.type = some h := by rw [hty]; exact hh
    simp only [dueChain, Bool.and_eq_true, decide_eq_true_eq] at hchain
    obtain ⟨hle, hrest⟩ := hchain
    by_cases hc : a + 1 < M
    · -- retries left after this failure: the job is re-pended
      have hc' : j.attempts + 1 < j.maxAttempts := by rw [ha, hM]; exact hc
      have htick := @tick_fail_repend hs h backoff t j F hty' hf hle hc'
      have hstep := ih
        { j with attempts := j.attempts + 1, updatedAt := t, nextRunAt := t + backoff }
        F (a + 1) M (by simpa using hty) (by simp [ha]) (by simpa using hM) hc
        (by simpa using hrest)
      by_cases hlen : ts.length < M - (a + 1)
      · rw [if_pos hlen] at hstep
        obtain ⟨j', hrun, hid, htyp, hatt, hmax⟩ := hstep
        rw [if_pos (show (t :: ts).length < M - a by
          simp only [List.length_cons]; omega)]
        refine ⟨j', ?_, by simpa using hid, htyp, ?_, hmax⟩
        · simp only [runTicks, htick, hrun]
          simp [List.replicate_succ]
        · simp only [List.length_cons]
          omega
      · rw [if_neg hlen] at hstep
        obtain ⟨j', hrun, hid, htyp, hatt⟩ := hstep
        rw [if_neg (show ¬ (t :: ts).length < M - a by
          simp only [List.length_cons]; omega)]
        refine ⟨j', ?_, by simpa using hid, htyp, hatt⟩
        simp only [runTicks, htick, hrun]
        have hrep : M - a = (M - (a + 1)) + 1 := by omega
        simp [hrep, List.replicate_succ]
    · -- last attempt: the job is quarantined and later ticks are no-ops
      have hc' : ¬ j.attempts + 1 < j.maxAttempts := by rw [ha, hM]; exact hc
      have htick := @tick_fail_final hs h backoff t j F hty' hf hle hc'
      rw [if_neg (show ¬ (t :: ts).length < M - a by
        simp only [List.length_cons]; omega)]
      refine ⟨{ j with attempts := j.attempts + 1, updatedAt := t }, ?_, rfl, hty,
        by simp; omega⟩
      have hrep : M - a = 1 := by omega
      simp only [runTicks, htick, runTicks_no_pending]
      simp [hrep]

end Queue

/-- C3: a job enqueued with `maxAttempts = M ≥ 1` whose registered handler
fails on every invocation is invoked exactly `M` times across a chain of due
scheduling ticks of the running queue; after the `M`-th failure the job sits
in the failed set exactly once (its id being fresh there), pending is empty
so `size()` no longer counts it, and any further ticks leave it failed and
never pending again. -/
theorem claim_job_retry_bound :
    ∀ (M : Nat) (hs : Queue.Handlers) (h : Queue.Job → Bool)
      (ty payload id : String) (delay now backoff : Nat) (ts : List Nat)
      (F : List Queue.Job),
      1 ≤ M →
      hs ty = some h → (∀ x, h x = false) →
      Queue.dueChain backoff (now + delay) ts = true →
      M ≤ ts.length →
      (∀ x ∈ F, x.id ≠ id) →
      ∃ j', Queue.runTicks hs backoff ts
          (Queue.enqueue ⟨[], F, true, false⟩ ty payload M delay id now).1 =
          (⟨[], F ++ [j'], true, false⟩, List.replicate M id) ∧
        j'.id = id ∧ j'.attempts = M ∧
        ((F ++ [j']).filter (fun x => x.id = id)).length = 1 ∧
        (∀ ts2, Queue.runTicks hs backoff ts2 ⟨[], F ++ [j'], true, false⟩ =
          (⟨[], F ++ [j'], true, false⟩, [])) := by
  intro M hs h ty payload id delay now backoff ts F hM hh hf hchain hlen hfresh
  have hrun := Queue.runTicks_always_fail hs backoff h ty hh hf ts
    { id := id, type := ty, payload := payload, attempts := 0, maxAttempts := M,
      createdAt := now, updatedAt := now, nextRunAt := now + delay } F 0 M
    rfl rfl rfl (by omega) (by simpa using hchain)
  rw [if_neg (by simp; omega)] at hrun
  obtain ⟨j', hr, hid, htyp, hatt⟩ := hrun
  refine ⟨j', ?_, by simpa using hid, hatt, ?_, ?_⟩
  · have : (Queue.enqueue ⟨[], F, true, false⟩ ty payload M delay id now).1 =
        (⟨[{ id := id, type := ty, payload := payload, attempts := 0,
             maxAttempts := M, createdAt := now, updatedAt := now,
             nextRunAt := now + delay }], F, true, false⟩ : Queue.QState) := rfl
    rw [this]
    simpa using hr
  · have hflt : F.filter (fun x => x.id = id) = [] := by
      rw [List.filter_eq_nil_iff]
      intro x hx
      simpa using hfresh x hx
    simp [List.filter_append, hflt, hid]
  · intro ts2
    exact Queue.runTicks_no_pending hs backoff ts2 (F ++ [j'])

/-- C3 witness: `maxAttempts = 2`, an always-failing handler for type
`"email"`, three due ticks — two invocations, then the job is failed once and
pending is empty. -/
theorem claim_job_retry_bound_witness :
    ((1 : Nat) ≤ 2 ∧
     Queue.registerHandler (fun _ => none) "email" (fun _ => false) "email" =
       some (fun _ => false) ∧
     Queue.dueChain 500 (0 + 0) [0, 500, 1200] = true ∧
     (2 : Nat) ≤ 3) ∧
    (∃ j', Queue.runTicks
        (Queue.registerHandler (fun _ => none) "email" (fun _ => false)) 500
        [0, 500, 1200]
        (Queue.enqueue ⟨[], [], true, false⟩ "email" "hello" 2 0 "job-1" 0).1 =
        (⟨[], [] ++ [j'], true, false⟩, List.replicate 2 "job-1") ∧
      j'.id = "job-1" ∧ j'.attempts = 2 ∧
      ((([] : List Queue.Job) ++ [j']).filter (fun x => x.id = "job-1")).length = 1 ∧
      (∀ ts2, Queue.runTicks
          (Queue.registerHandler (fun _ => none) "email" (fun _ => false)) 500 ts2
          ⟨[], [] ++ [j'], true, false⟩ =
        (⟨[], [] ++ [j'], true, false⟩, []))) :=
  ⟨⟨by decide, rfl, by decide, by decide⟩,
   claim_job_retry_bound 2
     (Queue.registerHandler (fun _ => none) "email" (fun _ => false))
     (fun _ => false) "email" "hello" "job-1" 0 0 500 [0, 500, 1200] []
     (by decide) rfl (fun _ => rfl) (by decide) (by decide)
     (by intro x hx; cases hx)⟩

namespace Queue

/-- Invariants of the sequential processing loop of a tick: the original
pending jobs survive, pending only grows by jobs re-pended with the fixed
backoff, the failed set only grows, every ready job is either invoked (its id
logged) or moved to the failed set, and the log only mentions ids of ready
jobs. -/
theorem foldl_processJob_spec (hs : Handlers) (backoff now : Nat) :
    ∀ (ready P F : List Job) (L : List String),
      (∀ j ∈ (ready.foldl (processJob hs backoff now) (P, F, L)).1,
        j ∈ P ∨ j.nextRunAt = now + backoff) ∧
      (∀ j ∈ P, j ∈ (ready.foldl (processJob hs backoff now) (P, F, L)).1) ∧
      (∀ j ∈ F, j ∈ (ready.foldl (processJob hs backoff now) (P, F, L)).2.1) ∧
      (∀ s ∈ L, s ∈ (ready.foldl (processJob hs backoff now) (P, F, L)).2.2) ∧
      (∀ j ∈ ready, j.id ∈ (ready.foldl (processJob hs backoff now) (P, F, L)).2.2 ∨
        j ∈ (ready.foldl (processJob hs backoff now) (P, F, L)).2.1) ∧
      (∀ s ∈ (ready.foldl (processJob hs backoff now) (P, F, L)).2.2,
        s ∈ L ∨ ∃ j, j ∈ ready ∧ s = j.id) := by
  intro ready
  induction ready with
  | nil =>
    intro P F L
    refine ⟨fun j hj => Or.inl hj, fun j hj => hj, fun j hj => hj, fun s hsm => hsm,
      fun j hj => absurd hj (by simp), fun s hsm => Or.inl hsm⟩
  | cons r rs ih =>
    intro P F L
    rw [List.foldl_cons]
    rcases hr : hs r.type with _ | h
    · -- no handler registered: the job is dropped into the failed set
      have hacc : processJob hs backoff now (P, F, L) r = (P, F ++ [r], L) := by
        simp [processJob, hr]
      rw [hacc]
      obtain ⟨i1, i2, i3, i4, i5, i6⟩ := ih P (F ++ [r]) L
      refine ⟨i1, i2, fun j hj => i3 j (by simp [hj]), i4, ?_, ?_⟩
      · intro j hj
        rcases List.mem_cons.mp hj with hj | hj
        · subst hj
          exact Or.inr (i3 j (by simp))
        · exact i5 j hj
      · intro s hsm
        rcases i6 s hsm with hL | ⟨j, hjm, hje⟩
        · exact Or.inl hL
        · exact Or.inr ⟨j, by simp [hjm], hje⟩
    · by_cases hsucc : h r = true
      · -- handler succeeded: the job is discarded
        have hacc : processJob hs backoff now (P, F, L) r = (P, F, L ++ [r.id]) := by
          simp [processJob, hr, hsucc]
        rw [hacc]
        obtain ⟨i1, i2, i3, i4, i5, i6⟩ := ih P F (L ++ [r.id])
        refine ⟨i1, i2, i3, fun s hsm => i4 s (by simp [hsm]), ?_, ?_⟩
        · intro j hj
          rcases List.mem_cons.mp hj with hj | hj
          · subst hj
            exact Or.inl (i4 j.id (by simp))
          · exact i5 j hj
        · intro s hsm
          rcases i6 s hsm with hL | ⟨j, hjm, hje⟩
          · rcases List.mem_append.mp hL with hL | hL
            · exact Or.inl hL
            · exact Or.inr ⟨r, by simp, by simpa using hL⟩
          · exact Or.inr ⟨j, by simp [hjm], hje⟩
      · rw [Bool.not_eq_true] at hsucc
        by_cases hlt : r.attempts + 1 < r.maxAttempts
        · -- failed with retries left: re-pended with the fixed backoff
          have hacc : processJob hs backoff now (P, F, L) r =
              (P ++ [{ r with
                  attempts := r.attempts + 1,
                  updatedAt := now,
                  nextRunAt := now + backoff }], F, L ++ [r.id]) := by
            simp [processJob, hr, hsucc, hlt]
          rw [hacc]
          obtain ⟨i1, i2, i3, i4, i5, i6⟩ := ih
            (P ++ [{ r with
                attempts := r.attempts + 1,
                updatedAt := now,
                nextRunAt := now + backoff }]) F (L ++ [r.id])
          refine ⟨?_, fun j hj => i2 j (by simp [hj]), i3,
            fun s hsm => i4 s (by simp [hsm]), ?_, ?_⟩
          · intro j hj
            rcases i1 j hj with hP | heq
            · rcases List.mem_append.mp hP with hP | hP
              · exact Or.inl hP
              · simp only [List.mem_singleton] at hP
                subst hP
                exact Or.inr rfl
            · exact Or.inr heq
          · intro j hj
            rcases List.mem_cons.mp hj with hj | hj
            · subst hj
              exact Or.inl (i4 j.id (by simp))
            · exact i5 j hj
          · intro s hsm
            rcases i6 s hsm with hL | ⟨j, hjm, hje⟩
            · rcases List.mem_append.mp hL with hL | hL
              · exact Or.inl hL
              · exact Or.inr ⟨r, by simp, by simpa using hL⟩
            · exact Or.inr ⟨j, by simp [hjm], hje⟩
        · -- failed on the last attempt: quarantined
          have hacc : processJob hs backoff now (P, F, L) r =
              (P, F ++ [{ r with attempts := r.attempts + 1, updatedAt := now }],
               L ++ [r.id]) := by
            simp [processJob, hr, hsucc, hlt]
          rw [hacc]
          obtain ⟨i1, i2, i3, i4, i5, i6⟩ := ih P
            (F ++ [{ r with attempts := r.attempts + 1, updatedAt := now }])
            (L ++ [r.id])
          refine ⟨i1, i2, fun j hj => i3 j (by simp [hj]),
            fun s hsm => i4 s (by simp [hsm]), ?_, ?_⟩
          · intro j hj
            rcases List.mem_cons.mp hj with hj | hj
            · subst hj
              exact Or.inl (i4 j.id (by simp))
            · exact i5 j hj
          · intro s hsm
            rcases i6 s hsm with hL | ⟨j, hjm, hje⟩
            · rcases List.mem_append.mp hL with hL | hL
              · exact Or.inl hL
              · exact Or.inr ⟨r, by simp, by simpa using hL⟩
            · exact Or.inr ⟨j, by simp [hjm], hje⟩

end Queue

namespace Queue

/-- A tick finds no ready job when every pending job is still in the future;
it then changes nothing, regardless of the queue flags. -/
theorem processTick_not_ready {hs : Handlers} {backoff now : Nat} {st : QState}
    (h : ∀ j ∈ st.pending, ¬ j.nextRunAt ≤ now) :
    processTick hs backoff now st = (st, false, []) := by
  unfold processTick
  by_cases hg : ¬ st.running ∨ st.processing
  · rw [if_pos hg]
  · have hfil : st.pending.filter (fun j => j.nextRunAt ≤ now) = [] := by
      rw [List.filter_eq_nil_iff]
      intro a ha
      simpa using h a ha
    simp [hg, hfil]

/-- A tick reporting no ready job changed nothing and invoked nothing. -/
theorem processTick_false_noop {hs : Handlers} {backoff now : Nat}
    {st st1 : QState} {log : List String}
    (h : processTick hs backoff now st = (st1, false, log)) :
    st1 = st ∧ log = [] := by
  unfold processTick at h
  by_cases hg : ¬ st.running ∨ st.processing
  · rw [if_pos hg] at h
    obtain ⟨h1, _, h3⟩ := Prod.mk.injEq .. ▸ h
    exact ⟨by simp_all, by simp_all⟩
  · rw [if_neg hg] at h
    by_cases he : (st.pending.filter (fun j => j.nextRunAt ≤ now)).isEmpty
    · rw [if_pos he] at h
      exact ⟨by simp_all, by simp_all⟩
    · rw [if_neg he] at h
      have := congrArg (fun p => p.2.1) h
      simp at this

/-- The shape of a tick that found ready jobs. -/
theorem processTick_ready_eq {hs : Handlers} {backoff now : Nat} {st : QState}
    (hrun : st.running = true) (hproc : st.processing = false)
    (hne : (st.pending.filter (fun j => j.nextRunAt ≤ now)).isEmpty = false) :
    processTick hs backoff now st =
      ({ st with
          pending := ((st.pending.filter (fun j => j.nextRunAt ≤ now)).foldl
            (processJob hs backoff now)
            (st.pending.filter (fun j => ¬ j.nextRunAt ≤ now), st.failed, [])).1,
          failed := ((st.pending.filter (fun j => j.nextRunAt ≤ now)).foldl
            (processJob hs backoff now)
            (st.pending.filter (fun j => ¬ j.nextRunAt ≤ now), st.failed, [])).2.1 },
       true,
       ((st.pending.filter (fun j => j.nextRunAt ≤ now)).foldl
         (processJob hs backoff now)
         (st.pending.filter (fun j => ¬ j.nextRunAt ≤ now), st.failed, [])).2.2) := by
  unfold processTick
  simp [hrun, hproc, hne]

/-- What one tick of the running queue guarantees at time `now`, for a
positive backoff and distinct pending ids: afterwards no pending job is ready,
every previously ready job was invoked or quarantined, and every waiting job
is still pending, untouched. -/
theorem processTick_drain_spec (hs : Handlers) (backoff now : Nat) (st : QState)
    (hrun : st.running = true) (hproc : st.processing = false) (hb : 1 ≤ backoff)
    (hnodup : (st.pending.map (fun j => j.id)).Nodup) :
    (∀ j ∈ (processTick hs backoff now st).1.pending, ¬ j.nextRunAt ≤ now) ∧
    (∀ j ∈ st.pending, j.nextRunAt ≤ now →
      j.id ∈ (processTick hs backoff now st).2.2 ∨
      j ∈ (processTick hs backoff now st).1.failed) ∧
    (∀ j ∈ st.pending, ¬ j.nextRunAt ≤ now →
      j ∈ (processTick hs backoff now st).1.pending ∧
      j.id ∉ (processTick hs backoff now st).2.2) ∧
    (processTick hs backoff now st).1.running = true ∧
    (processTick hs backoff now st).1.processing = false := by
  by_cases hne : (st.pending.filter (fun j => j.nextRunAt ≤ now)).isEmpty
  · have hnone : ∀ j ∈ st.pending, ¬ j.nextRunAt ≤ now := by
      intro j hj hle
      have hmem : j ∈ st.pending.filter (fun x => x.nextRunAt ≤ now) :=
        List.mem_filter.mpr ⟨hj, by simpa using hle⟩
      rw [List.isEmpty_iff.mp hne] at hmem
      cases hmem
    have hres : processTick hs backoff now st = (st, false, []) :=
      processTick_not_ready hnone
    rw [hres]
    exact ⟨hnone, fun j hj hle => absurd hle (hnone j hj),
      fun j hj _ => ⟨hj, by simp⟩, hrun, hproc⟩
  · rw [Bool.not_eq_true] at hne
    have hres := @processTick_ready_eq hs backoff now st hrun hproc hne
    obtain ⟨i1, i2, i3, i4, i5, i6⟩ := foldl_processJob_spec hs backoff now
      (st.pending.filter (fun j => j.nextRunAt ≤ now))
      (st.pending.filter (fun j => ¬ j.nextRunAt ≤ now)) st.failed []
    rw [hres]
    refine ⟨?_, ?_, ?_, hrun, hproc⟩
    · intro j hj
      simp only at hj
      rcases i1 j hj with hw | heq
      · have := (List.mem_filter.mp hw).2
        simpa using this
      · intro hle
        rw [heq] at hle
        omega
    · intro j hj hle
      have hmem : j ∈ st.pending.filter (fun x => x.nextRunAt ≤ now) :=
        List.mem_filter.mpr ⟨hj, by simpa using hle⟩
      simpa using i5 j hmem
    · intro j hj hnle
      have hmem : j ∈ st.pending.filter (fun x => ¬ x.nextRunAt ≤ now) :=
        List.mem_filter.mpr ⟨hj, by simpa using hnle⟩
      refine ⟨by simpa using i2 j hmem, ?_⟩
      intro hid
      simp only at hid
      rcases i6 j.id hid with hnil | ⟨jr, hjr, hje⟩
      · cases hnil
      · have hjrp : jr ∈ st.pending := (List.mem_filter.mp hjr).1
        have hjrle : jr.nextRunAt ≤ now := by
          have := (List.mem_filter.mp hjr).2
          simpa using this
        have : j = jr := List.inj_on_of_nodup_map hnodup hj hjrp hje
        rw [this] at hnle
        exact hnle hjrle

end Queue

namespace Queue

/-- For a running queue with positive backoff, the drain loop stops after the
first effective tick: the tick leaves no job ready (at the fixed `now`), so
the next step finds no ready job and the loop exits. -/
theorem drain_eq (hs : Handlers) (backoff now : Nat) (st : QState)
    (hrun : st.running = true) (hproc : st.processing = false) (hb : 1 ≤ backoff)
    (hnodup : (st.pending.map (fun j => j.id)).Nodup) :
    drain hs backoff now st =
      ((processTick hs backoff now st).1, (processTick hs backoff now st).2.2) := by
  obtain ⟨s1, _, _, f1, f2⟩ := processTick_drain_spec hs backoff now st hrun hproc hb hnodup
  rcases hout : processTick hs backoff now st with ⟨st1, had, log⟩
  rw [hout] at s1 f1 f2
  simp only at s1 f1 f2
  unfold drain drainBound
  cases had with
  | false =>
    obtain ⟨he1, he2⟩ := processTick_false_noop hout
    simp only [drainFuel, hout]
  | true =>
    have hnext : processTick hs backoff now st1 = (st1, false, []) :=
      processTick_not_ready s1
    simp only [drainFuel, hout, hnext]
    simp

end Queue

/-- C9 counterexample: `drain()` on a stopped queue returns immediately —
`processTick` bails out when `running` is false — leaving a ready job
(`nextRunAt = 0 ≤ now = 100`) pending and unprocessed, so drain completeness
does not hold for every queue state. -/
theorem claim_drain_completeness_counterexample :
    (Queue.drain (fun _ => some (fun _ => true)) 500 100
        ⟨[Queue.Job.mk "j1" "t" "" 0 3 0 0 0], [], false, false⟩).1.pending =
      [Queue.Job.mk "j1" "t" "" 0 3 0 0 0] ∧
    (Queue.Job.mk "j1" "t" "" 0 3 0 0 0).nextRunAt ≤ 100 ∧
    (Queue.drain (fun _ => some (fun _ => true)) 500 100
        ⟨[Queue.Job.mk "j1" "t" "" 0 3 0 0 0], [], false, false⟩).2 = [] :=
  ⟨rfl, by decide, rfl⟩

/-- C9 (amended): for a *running* queue with no tick in flight, a positive
backoff and distinct pending ids, when `drain()` returns every job that was
ready (`nextRunAt ≤ now`) has been processed — its handler was invoked or it
was moved to the failed set — and no ready job remains pending, while jobs
whose `nextRunAt` is still in the future remain pending, uninvoked; drain
loops the tick-processing step until a step finds no ready job. -/
theorem claim_drain_completeness :
    ∀ (hs : Queue.Handlers) (backoff now : Nat) (st : Queue.QState),
      st.running = true → st.processing = false → 1 ≤ backoff →
      (st.pending.map (fun j => j.id)).Nodup →
      (∀ j ∈ (Queue.drain hs backoff now st).1.pending, now < j.nextRunAt) ∧
      (∀ j ∈ st.pending, j.nextRunAt ≤ now →
        j.id ∈ (Queue.drain hs backoff now st).2 ∨
        j ∈ (Queue.drain hs backoff now st).1.failed) ∧
      (∀ j ∈ st.pending, now < j.nextRunAt →
        j ∈ (Queue.drain hs backoff now st).1.pending ∧
        j.id ∉ (Queue.drain hs backoff now st).2) := by
  intro hs backoff now st hrun hproc hb hnodup
  obtain ⟨s1, s2, s3, _, _⟩ :=
    Queue.processTick_drain_spec hs backoff now st hrun hproc hb hnodup
  rw [Queue.drain_eq hs backoff now st hrun hproc hb hnodup]
  refine ⟨?_, s2, ?_⟩
  · intro j hj
    have := s1 j hj
    omega
  · intro j hj hlt
    exact s3 j hj (by omega)

/-- C9 witness: a running queue with one ready job (handled successfully) and
one delayed job — after `drain()` the ready job is gone and was invoked, the
delayed one is still pending and was not. -/
theorem claim_drain_completeness_witness :
    ((⟨[Queue.Job.mk "a" "t" "" 0 3 0 0 50, Queue.Job.mk "b" "t" "" 0 3 0 0 900],
        [], true, false⟩ : Queue.QState).running = true ∧
     (⟨[Queue.Job.mk "a" "t" "" 0 3 0 0 50, Queue.Job.mk "b" "t" "" 0 3 0 0 900],
        [], true, false⟩ : Queue.QState).processing = false ∧
     (1 : Nat) ≤ 500 ∧
     (((⟨[Queue.Job.mk "a" "t" "" 0 3 0 0 50, Queue.Job.mk "b" "t" "" 0 3 0 0 900],
        [], true, false⟩ : Queue.QState).pending.map (fun j => j.id)).Nodup)) ∧
    ((∀ j ∈ (Queue.drain (fun _ => some (fun _ => true)) 500 100
        ⟨[Queue.Job.mk "a" "t" "" 0 3 0 0 50, Queue.Job.mk "b" "t" "" 0 3 0 0 900],
         [], true, false⟩).1.pending, 100 < j.nextRunAt) ∧
     (∀ j ∈ (⟨[Queue.Job.mk "a" "t" "" 0 3 0 0 50, Queue.Job.mk "b" "t" "" 0 3 0 0 900],
         [], true, false⟩ : Queue.QState).pending, j.nextRunAt ≤ 100 →
       j.id ∈ (Queue.drain (fun _ => some (fun _ => true)) 500 100
        ⟨[Queue.Job.mk "a" "t" "" 0 3 0 0 50, Queue.Job.mk "b" "t" "" 0 3 0 0 900],
         [], true, false⟩).2 ∨
       j ∈ (Queue.drain (fun _ => some (fun _ => true)) 500 100
        ⟨[Queue.Job.mk "a" "t" "" 0 3 0 0 50, Queue.Job.mk "b" "t" "" 0 3 0 0 900],
         [], true, false⟩).1.failed) ∧
     (∀ j ∈ (⟨[Queue.Job.mk "a" "t" "" 0 3 0 0 50, Queue.Job.mk "b" "t" "" 0 3 0 0 900],
         [], true, false⟩ : Queue.QState).pending, 100 < j.nextRunAt →
       j ∈ (Queue.drain (fun _ => some (fun _ => true)) 500 100
        ⟨[Queue.Job.mk "a" "t" "" 0 3 0 0 50, Queue.Job.mk "b" "t" "" 0 3 0 0 900],
         [], true, false⟩).1.pending ∧
       j.id ∉ (Queue.drain (fun _ => some (fun _ => true)) 500 100
        ⟨[Queue.Job.mk "a" "t" "" 0 3 0 0 50, Queue.Job.mk "b" "t" "" 0 3 0 0 900],
         [], true, false⟩).2)) :=
  ⟨⟨rfl, rfl, by decide, by decide⟩,
   claim_drain_completeness (fun _ => some (fun _ => true)) 500 100
     ⟨[Queue.Job.mk "a" "t" "" 0 3 0 0 50, Queue.Job.mk "b" "t" "" 0 3 0 0 900],
      [], true, false⟩ rfl rfl (by decide) (by decide)⟩

namespace Risk

/-- A wallet with no stored evaluations has no latest evaluation. -/
theorem findLatest_none {repo : RiskRepo} {w : String}
    (hw : ∀ e ∈ repo.evaluations, e.walletAddress ≠ w) :
    findLatestByWalletAddress repo w = none := by
  unfold findLatestByWalletAddress
  have hfil : repo.evaluations.filter (fun e => e.walletAddress = w) = [] := by
    rw [List.filter_eq_nil_iff]
    intro e he
    simpa using hw e he
  rw [hfil]
  rfl

/-- After appending an evaluation for `w` to a store holding none for `w`,
the latest evaluation for `w` is exactly the appended one. -/
theorem findLatest_append_fresh {repo' : RiskRepo} {evals : List RiskEvaluation}
    {e' : RiskEvaluation} {w : String}
    (hrepo : repo'.evaluations = evals ++ [e'])
    (hw : ∀ e ∈ evals, e.walletAddress ≠ w) (he : e'.walletAddress = w) :
    findLatestByWalletAddress repo' w = some e' := by
  unfold findLatestByWalletAddress
  rw [hrepo]
  have hfil : evals.filter (fun e => e.walletAddress = w) = [] := by
    rw [List.filter_eq_nil_iff]
    intro e he2
    simpa using hw e he2
  rw [List.filter_append, hfil]
  simp [he]

/-- Filtering a list by a predicate and by its negation partitions it. -/
theorem length_filter_partition {α : Type} (l : List α) (p : α → Prop)
    [DecidablePred p] :
    (l.filter (fun x => p x)).length + (l.filter (fun x => ¬ p x)).length =
      l.length := by
  induction l with
  | nil => simp
  | cons x xs ih =>
    rw [List.filter_cons, List.filter_cons]
    by_cases hx : p x
    · rw [if_pos (by simp [hx]), if_neg (by simp [hx])]
      simp only [List.length_cons]
      omega
    · rw [if_neg (by simp [hx]), if_pos (by simp [hx])]
      simp only [List.length_cons]
      omega

end Risk

/-- C4: on a wallet with no stored evaluations, two `evaluateRisk` calls
within 24 hours without `forceRefresh` return the same `riskScore` — the
first computes and persists, the second is served from the cache and tagged
so; `forceRefresh = true` always computes and persists a new evaluation; and
`deleteExpired()` at time `T` removes exactly the stored evaluations with
`expiresAt < T` and returns their count. -/
theorem claim_risk_cache_ttl :
    (∀ (repo : Risk.RiskRepo) (w : String) (now1 now2 : Nat),
      w ≠ "" →
      (∀ e ∈ repo.evaluations, e.walletAddress ≠ w) →
      now2 < now1 + 24 * 60 * 60 * 1000 →
      ∃ r1 repo1 r2,
        Risk.evaluateRisk repo w false now1 = .ok (r1, repo1) ∧
        Risk.evaluateRisk repo1 w false now2 = .ok (r2, repo1) ∧
        r2.riskScore = r1.riskScore ∧
        r1.message = "New risk evaluation completed" ∧
        r2.message = "Using cached risk evaluation") ∧
    (∀ (repo : Risk.RiskRepo) (w : String) (now : Nat),
      w ≠ "" →
      ∃ r, Risk.evaluateRisk repo w true now =
          .ok (r, (Risk.save repo (Risk.performRiskEvaluation w now)).2) ∧
        r.message = "New risk evaluation completed" ∧
        (Risk.save repo (Risk.performRiskEvaluation w now)).2.evaluations.length =
          repo.evaluations.length + 1) ∧
    (∀ (repo : Risk.RiskRepo) (T : Nat),
      (Risk.deleteExpired repo T).1 =
        (repo.evaluations.filter (fun e => e.expiresAt < T)).length ∧
      (∀ e, e ∈ (Risk.deleteExpired repo T).2.evaluations ↔
        e ∈ repo.evaluations ∧ ¬ e.expiresAt < T) ∧
      (Risk.deleteExpired repo T).1 +
        (Risk.deleteExpired repo T).2.evaluations.length =
        repo.evaluations.length) := by
  refine ⟨?_, ?_, ?_⟩
  · intro repo w now1 now2 hw hfresh hlt
    have hlat1 : Risk.findLatestByWalletAddress repo w = none :=
      Risk.findLatest_none hfresh
    have hvalid1 : Risk.isValid repo w now1 = false := by
      unfold Risk.isValid
      rw [hlat1]
    have hlat2 : Risk.findLatestByWalletAddress
        (Risk.save repo (Risk.performRiskEvaluation w now1)).2 w =
        some (Risk.save repo (Risk.performRiskEvaluation w now1)).1 :=
      Risk.findLatest_append_fresh rfl hfresh rfl
    have hexp : (Risk.save repo (Risk.performRiskEvaluation w now1)).1.expiresAt =
        now1 + 24 * 60 * 60 * 1000 := rfl
    have hvalid2 : Risk.isValid (Risk.save repo (Risk.performRiskEvaluation w now1)).2
        w now2 = true := by
      unfold Risk.isValid
      rw [hlat2]
      simp [hexp, hlt]
    refine ⟨{ walletAddress := (Risk.performRiskEvaluation w now1).walletAddress,
              riskScore := (Risk.performRiskEvaluation w now1).riskScore,
              creditLimit := (Risk.performRiskEvaluation w now1).creditLimit,
              interestRateBps := (Risk.performRiskEvaluation w now1).interestRateBps,
              message := "New risk evaluation completed" },
            (Risk.save repo (Risk.performRiskEvaluation w now1)).2,
            { walletAddress := (Risk.save repo (Risk.performRiskEvaluation w now1)).1.walletAddress,
              riskScore := (Risk.save repo (Risk.performRiskEvaluation w now1)).1.riskScore,
              creditLimit := (Risk.save repo (Risk.performRiskEvaluation w now1)).1.creditLimit,
              interestRateBps := (Risk.save repo (Risk.performRiskEvaluation w now1)).1.interestRateBps,
              message := "Using cached risk evaluation" },
            ?_, ?_, rfl, rfl, rfl⟩
    · simp [Risk.evaluateRisk, hw, hvalid1]
    · simp [Risk.evaluateRisk, hw, hvalid2, hlat2]
  · intro repo w now hw
    refine ⟨{ walletAddress := (Risk.performRiskEvaluation w now).walletAddress,
              riskScore := (Risk.performRiskEvaluation w now).riskScore,
              creditLimit := (Risk.performRiskEvaluation w now).creditLimit,
              interestRateBps := (Risk.performRiskEvaluation w now).interestRateBps,
              message := "New risk evaluation completed" },
            ?_, rfl, by simp [Risk.save]⟩
    simp [Risk.evaluateRisk, hw]
  · intro repo T
    refine ⟨rfl, ?_, ?_⟩
    · intro e
      simp [Risk.deleteExpired, List.mem_filter]
    · exact Risk.length_filter_partition repo.evaluations (fun e => e.expiresAt < T)

/-- C4 witness: two calls on a fresh wallet within 24 hours, then a forced
refresh. -/
theorem claim_risk_cache_ttl_witness :
    (("GWALLET" : String) ≠ "" ∧
     (∀ e ∈ (⟨[], 0⟩ : Risk.RiskRepo).evaluations, e.walletAddress ≠ "GWALLET") ∧
     (1000 : Nat) < 0 + 24 * 60 * 60 * 1000) ∧
    (∃ r1 repo1 r2,
      Risk.evaluateRisk ⟨[], 0⟩ "GWALLET" false 0 = .ok (r1, repo1) ∧
      Risk.evaluateRisk repo1 "GWALLET" false 1000 = .ok (r2, repo1) ∧
      r2.riskScore = r1.riskScore ∧
      r1.message = "New risk evaluation completed" ∧
      r2.message = "Using cached risk evaluation") ∧
    (∃ r, Risk.evaluateRisk ⟨[], 0⟩ "GWALLET" true 7 =
        .ok (r, (Risk.save ⟨[], 0⟩ (Risk.performRiskEvaluation "GWALLET" 7)).2) ∧
      r.message = "New risk evaluation completed" ∧
      (Risk.save ⟨[], 0⟩ (Risk.performRiskEvaluation "GWALLET" 7)).2.evaluations.length =
        (⟨[], 0⟩ : Risk.RiskRepo).evaluations.length + 1) :=
  ⟨⟨by decide, ⟨by simp, by decide⟩⟩,
   ⟨claim_risk_cache_ttl.1 ⟨[], 0⟩ "GWALLET" 0 1000 (by decide)
      (by simp) (by decide),
    claim_risk_cache_ttl.2.1 ⟨[], 0⟩ "GWALLET" 7 (by decide)⟩⟩
